import Mathlib

/-!
Verification of the muuzika-server lifecycle engine (rooms, code pool, tokens,
connections, cleanup timers) against its natural-language specification.

The Rust sources are shallowly embedded: `HashMap` becomes an association list,
`Vec` becomes a `List` (with `pop` removing the last element and `push`
appending, as in Rust), `oneshot::Sender<()>` presence becomes `Option Unit`,
and each `async fn` of `src/lobby.rs` becomes a pure state-transforming
function that additionally returns the list of frames it fanned out.

The repository snapshot mixes two revisions: `src/lobby.rs`, `src/state.rs`,
`src/auth.rs`, `src/filters.rs` and `src/messages.rs` form the revision the
specification describes (the lobby orchestration layer), while `src/rooms.rs`,
`src/errors.rs`, `src/ws.rs` and `src/controller.rs` contain an earlier
revision of some of the same functions.  The embedding below follows the lobby
orchestration revision for the lifecycle operations; the `Errors` namespace
separately embeds `src/errors.rs` exactly as it stands, since the
error-taxonomy claim cites that file.
-/

namespace Muuzika

/-! ## Association-list model of `HashMap` -/

/-- First value stored under key `k` (model of `HashMap::get`). -/
def lookupKey [DecidableEq κ] (l : List (κ × ν)) (k : κ) : Option ν :=
  match l with
  | [] => none
  | (k1, v1) :: rest => if k1 = k then some v1 else lookupKey rest k

/-- Insert-or-replace under key `k` (model of `HashMap::insert`). -/
def insertKey [DecidableEq κ] (l : List (κ × ν)) (k : κ) (v : ν) : List (κ × ν) :=
  match l with
  | [] => [(k, v)]
  | (k1, v1) :: rest => if k1 = k then (k, v) :: rest else (k1, v1) :: insertKey rest k v

/-- Remove the entry under key `k` (model of `HashMap::remove`). -/
def eraseKey [DecidableEq κ] (l : List (κ × ν)) (k : κ) : List (κ × ν) :=
  match l with
  | [] => []
  | (k1, v1) :: rest => if k1 = k then rest else (k1, v1) :: eraseKey rest k

/-- Key membership (model of `HashMap::contains_key`). -/
def containsKey [DecidableEq κ] (l : List (κ × ν)) (k : κ) : Bool :=
  match l with
  | [] => false
  | (k1, _) :: rest => if k1 = k then true else containsKey rest k

/-- `Vec::pop`: remove and return the last element. -/
def vecPop : List α → Option (α × List α)
  | [] => none
  | [a] => some (a, [])
  | a :: b :: rest =>
    match vecPop (b :: rest) with
    | some (x, l) => some (x, a :: l)
    | none => none

/-! ## Identifiers and data model (`src/rooms.rs`, lobby revision) -/

/-- `RoomCode(String)`: a short fixed-width decimal string. -/
structure RoomCode where
  val : String
deriving DecidableEq

/-- `Username(String)`. -/
structure Username where
  val : String
deriving DecidableEq

/-- `WsConnection` (`src/ws.rs`): an id minted at creation plus the outbound
sink; the sink is opaque to the lifecycle logic and modelled by a number. -/
structure WsConnection where
  id : String
  tx : Nat
deriving DecidableEq

/-- `impl PartialEq for WsConnection` (`src/ws.rs` lines 193-197): two handles
are equal iff their `id` fields are equal; the sink is not compared. -/
def wsConnEq (a b : WsConnection) : Bool :=
  a.id == b.id

/-- A `Player` as used by `src/lobby.rs`.  The `rooms.rs` in the snapshot is an
earlier revision without the canceller; the `cancel_cleanup` field is modelled
from the spec (§3 Data model: `cleanup_canceller: optional one-shot signal`),
with `Option Unit` standing for presence of the stored `oneshot::Sender<()>`. -/
structure Player where
  username : Username
  score : Nat
  ws : Option WsConnection
  created_at : Nat
  cancel_cleanup : Option Unit
deriving DecidableEq

/-- `Player::new`: fresh player, offline, score 0, seat version `now`
(`chrono::Utc::now().timestamp_millis()` passed in as a parameter). -/
def Player.new (username : Username) (now : Nat) : Player :=
  { username := username
    score := 0
    ws := none
    created_at := now
    cancel_cleanup := none }

/-- A `Room` as used by `src/lobby.rs` (no back-reference to `State`; the
`cancel_cleanup` field is modelled from the spec §3: a pending
room-destruction canceller). -/
structure Room where
  code : RoomCode
  players : List (Username × Player)
  leader : Username
  cancel_cleanup : Option Unit
deriving DecidableEq

/-- `Room::new(code, leader)`: a room whose only occupant is the leader. -/
def Room.new (code : RoomCode) (leader : Player) : Room :=
  { code := code
    players := [(leader.username, leader)]
    leader := leader.username
    cancel_cleanup := none }

/-! ## Token codec (`src/auth.rs`)

The `jsonwebtoken` crate is an external collaborator; the spec (§1, §4.B)
fixes its contract: a symmetric-key signed envelope carrying the three claim
fields, whose verification checks the signature, deserializes the claims, and
honours the `Validation` switches.  It is modelled from that contract: a token
is its claims plus the signing secret (standing for the signature), decoding
succeeds iff the secrets match and every required registered claim is among
the fields the token actually carries. -/

/-- `JwtClaims`: the three claim fields. -/
structure JwtClaims where
  iat : Nat
  room_code : RoomCode
  username : Username
deriving DecidableEq

/-- Modelled from the spec: a signed envelope. `sig` records the secret the
token was signed with. -/
structure Token where
  sig : String
  claims : JwtClaims
deriving DecidableEq

/-- Errors of the external codec, as coarse as the core needs. -/
inductive TokenError where
  | InvalidSignature
  | MissingRequiredClaim
  | EncodingFailure
deriving DecidableEq

/-- The field names `JwtClaims` serializes to. -/
def tokenClaimNames : List String :=
  ["iat", "room_code", "username"]

/-- `jsonwebtoken::Validation`: the switches `decode_token` manipulates. -/
structure Validation where
  validate_exp : Bool
  required_spec_claims : List String
deriving DecidableEq

/-- `Validation::default()`: validates expiry and requires the `exp` claim. -/
def Validation.default : Validation :=
  { validate_exp := true, required_spec_claims := ["exp"] }

/-- Modelled from the spec: `jsonwebtoken::encode`.  Whether the external
encoder succeeds is environment-chosen and passed in as `ok`; on success the
token is the claims signed with `secret`. -/
def jwtEncode (secret : String) (claims : JwtClaims) (ok : Bool) : Except TokenError Token :=
  if ok then .ok { sig := secret, claims := claims } else .error .EncodingFailure

/-- Modelled from the spec: `jsonwebtoken::decode`.  Signature validity plus
deserialization into the three claim fields; a required registered claim that
the token does not carry is an error.  The claims have no `exp` field, so with
`validate_exp` there is nothing to check beyond the required-claims set. -/
def jwtDecode (secret : String) (token : Token) (validation : Validation) :
    Except TokenError JwtClaims :=
  if token.sig = secret then
    if validation.required_spec_claims.all (fun c => tokenClaimNames.contains c) then
      .ok token.claims
    else
      .error .MissingRequiredClaim
  else
    .error .InvalidSignature

/-- `encode_token` (`src/auth.rs` lines 28-47): build the claims and sign them
with the default header. -/
def encode_token (secret : String) (iat : Nat) (room_code : RoomCode)
    (username : Username) (ok : Bool) : Except TokenError Token :=
  jwtEncode secret { iat := iat, room_code := room_code, username := username } ok

/-- The `Validation` that `decode_token` builds: default, then
`validate_exp = false` and `required_spec_claims` emptied. -/
def decodeValidation : Validation :=
  { Validation.default with validate_exp := false, required_spec_claims := [] }

/-- `decode_token` (`src/auth.rs` lines 49-61). -/
def decode_token (secret : String) (token : Token) : Except TokenError JwtClaims :=
  jwtDecode secret token decodeValidation

/-! ## Errors of the lobby revision

The `errors.rs` in the snapshot is an earlier revision holding only four
unit variants (embedded separately in the `Errors` namespace below); the
variants used by `src/lobby.rs` and their payloads are modelled from the spec
taxonomy (§7). -/

/-- The error kinds `src/lobby.rs` produces. -/
inductive MuuzikaError where
  | Unknown
  | RoomNotFound (room_code : RoomCode)
  | OutOfRoomCodes
  | UsernameTaken (room_code : RoomCode) (username : Username)
  | PlayerNotInRoom (room_code : RoomCode) (username : Username)
  | InvalidToken
  | ConnectedInAnotherDevice
deriving DecidableEq

/-! ## DTOs and server messages (`src/rooms.rs`, `src/messages.rs`) -/

/-- `PlayerDto`. -/
structure PlayerDto where
  username : Username
  score : Nat
  is_online : Bool
deriving DecidableEq

/-- `impl From<&Player> for PlayerDto` (`src/rooms.rs` lines 230-238). -/
def Player.toDto (p : Player) : PlayerDto :=
  { username := p.username
    score := p.score
    is_online := p.ws.isSome }

/-- `RoomDto`. -/
structure RoomDto where
  code : RoomCode
  leader : Username
  players : List PlayerDto
deriving DecidableEq

/-- `impl From<&Room> for RoomDto`. -/
def Room.toDto (r : Room) : RoomDto :=
  { code := r.code
    leader := r.leader
    players := (r.players.map Prod.snd).map Player.toDto }

/-- `RoomSyncDto`. -/
structure RoomSyncDto where
  you : Username
  room : RoomDto
deriving DecidableEq

/-- `ServerMessage` (`src/messages.rs`).  `Error` carries the error value; the
source wraps it in an `ErrorResponse` whose body is studied separately in the
`Errors` namespace. -/
inductive ServerMessage where
  | Sync (sync : RoomSyncDto)
  | PlayerJoined (username : Username)
  | PlayerLeft (username : Username)
  | PlayerConnected (username : Username)
  | PlayerDisconnected (username : Username)
  | Noop
  | Error (e : MuuzikaError)
  | Result (n : Nat)
  | AddResult (result : Nat) (username : Username)
deriving DecidableEq

/-- `ClientMessage`. -/
inductive ClientMessage where
  | Add (numbers : List Nat)
deriving DecidableEq

/-- One observable transmission on a connection: `ws::send_or_close` of a
serialized frame, or `send_and_close` (a frame followed by a close). -/
inductive Effect where
  | sent (conn : String) (msg : ServerMessage)
  | sentClose (conn : String) (msg : ServerMessage)
deriving DecidableEq

/-- `Room::send` (`src/rooms.rs` lines 132-146): serialize once, then push the
frame to every player whose `ws` is `Some`.  Serialization of these message
types cannot fail, so the `MuuzikaResult` wrapper is dropped. -/
def Room.send (room : Room) (msg : ServerMessage) : List Effect :=
  ((room.players.map Prod.snd).filterMap (fun p => p.ws)).map
    (fun w => Effect.sent w.id msg)

/-- `Room::send_except` (`src/rooms.rs` lines 148-168): same, skipping the one
player whose `username` equals `except`. -/
def Room.sendExcept (room : Room) (msg : ServerMessage) (except : Username) : List Effect :=
  ((room.players.map Prod.snd).filterMap
      (fun p => if p.username ≠ except then p.ws else none)).map
    (fun w => Effect.sent w.id msg)

/-! ## Global state and code generation (`src/state.rs`) -/

/-- Decimal digit to its character, as in core formatting. -/
def digitOfChar (ch : Char) : Nat :=
  ch.toNat - 48

/-- `format!("{:0width$}", c)`: the decimal digits of `c` (least significant
first, as `Nat.digits` yields them) rendered to characters, left-padded with
zeros to `w` characters. -/
def formatWidth (w c : Nat) : String :=
  ⟨(((Nat.digits 10 c).map Nat.digitChar) ++
      List.replicate (w - (Nat.digits 10 c).length) '0').reverse⟩

/-- `generate_available_codes` (`src/state.rs` lines 32-43): all `10^w`
decimal strings of width `w`.  The source panics for `w > 9` (modelled as the
empty pool) and then shuffles with `thread_rng`; the shuffle only permutes the
list, and every theorem below depends only on the multiset of codes, so the
model keeps the generated order. -/
def generate_available_codes (code_length : Nat) : List RoomCode :=
  if code_length > 9 then []
  else (List.range (10 ^ code_length)).map (fun c => RoomCode.mk (formatWidth code_length c))

/-- `State` (`src/state.rs`): the registry and the code pool. -/
structure State where
  jwt_secret : String
  rooms : List (RoomCode × Room)
  available_codes : List RoomCode
deriving DecidableEq

/-- `State::new`: empty registry, full shuffled pool. -/
def State.new (jwt_secret : String) (code_length : Nat) : State :=
  { jwt_secret := jwt_secret
    rooms := []
    available_codes := generate_available_codes code_length }

/-! ## Lobby orchestration (`src/lobby.rs`)

Each operation returns its `MuuzikaResult`, the post-state, and the frames it
fanned out, in the order the source emits them. -/

/-- `pop_room_code` (`src/lobby.rs` lines 256-262). -/
def pop_room_code (s : State) : Except MuuzikaError (RoomCode × State) :=
  match vecPop s.available_codes with
  | some (code, rest) => .ok (code, { s with available_codes := rest })
  | none => .error .OutOfRoomCodes

/-- `push_room_code` (`src/lobby.rs` lines 264-268). -/
def push_room_code (s : State) (code : RoomCode) : State :=
  { s with available_codes := s.available_codes ++ [code] }

/-- `schedule_player_cleanup` (`src/lobby.rs` lines 270-295): if the player is
still in the room, store a fresh one-shot sender in `player.cancel_cleanup`
(replacing and thereby cancelling any previous one) and spawn the grace timer;
otherwise do nothing. -/
def schedule_player_cleanup (room : Room) (username : Username) : Room :=
  match lookupKey room.players username with
  | some p =>
    { room with players := insertKey room.players username { p with cancel_cleanup := some () } }
  | none => room

/-- `schedule_room_cleanup` (`src/lobby.rs` lines 327-341): store a fresh
one-shot sender in `room.cancel_cleanup` and spawn the grace timer. -/
def schedule_room_cleanup (room : Room) : Room :=
  { room with cancel_cleanup := some () }

/-- `create_room_with_code` (`src/lobby.rs` lines 231-254). -/
def create_room_with_code (s : State) (username : Username) (room_code : RoomCode)
    (now : Nat) (encodeOk : Bool) : Except MuuzikaError (State × Token) :=
  let leader := Player.new username now
  match encode_token s.jwt_secret leader.created_at room_code username encodeOk with
  | .error _ => .error .InvalidToken
  | .ok token =>
    let room := Room.new room_code leader
    let s1 := { s with rooms := insertKey s.rooms room_code room }
    -- `schedule_player_cleanup(state, wrapped_room, username)` mutates the
    -- same room through its `Arc` after the insertion.
    let s2 := { s1 with
      rooms := insertKey s1.rooms room_code (schedule_player_cleanup room username) }
    .ok (s2, token)

/-- `create_room` (`src/lobby.rs` lines 29-57): pop a code; on any later
failure push it back before returning the error. -/
def create_room (s : State) (username : Username) (now : Nat) (encodeOk : Bool) :
    Except MuuzikaError (RoomCode × Token) × State × List Effect :=
  match pop_room_code s with
  | .error e => (.error e, s, [])
  | .ok (room_code, s1) =>
    match create_room_with_code s1 username room_code now encodeOk with
    | .ok (s2, token) => (.ok (room_code, token), s2, [])
    | .error e => (.error e, push_room_code s1 room_code, [])

/-- `join_room` (`src/lobby.rs` lines 59-125). -/
def join_room (s : State) (room_code : RoomCode) (username : Username)
    (now : Nat) (encodeOk : Bool) :
    Except MuuzikaError Token × State × List Effect :=
  match lookupKey s.rooms room_code with
  | none => (.error (.RoomNotFound room_code), s, [])
  | some room =>
    if containsKey room.players username then
      (.error (.UsernameTaken room_code username), s, [])
    else
      let player := Player.new username now
      match encode_token s.jwt_secret player.created_at room_code username encodeOk with
      | .error _ => (.error .InvalidToken, s, [])
      | .ok token =>
        let room1 := { room with players := insertKey room.players username player }
        let fx := Room.send room1 (.PlayerJoined username)
        -- `room.cancel_cleanup.take()` followed by signalling it.
        let room2 := { room1 with cancel_cleanup := none }
        -- lock released, then `schedule_player_cleanup`.
        let room3 := schedule_player_cleanup room2 username
        (.ok token, { s with rooms := insertKey s.rooms room_code room3 }, fx)

/-- `connect_player` (`src/lobby.rs` lines 127-197). -/
def connect_player (s : State) (token : Token) (ws : WsConnection) :
    Except MuuzikaError RoomSyncDto × State × List Effect :=
  match decode_token s.jwt_secret token with
  | .error _ => (.error .InvalidToken, s, [])
  | .ok claims =>
    match lookupKey s.rooms claims.room_code with
    | none => (.error (.RoomNotFound claims.room_code), s, [])
    | some room =>
      match lookupKey room.players claims.username with
      | none => (.error (.PlayerNotInRoom room.code claims.username), s, [])
      | some player =>
        if claims.iat ≠ player.created_at then
          (.error (.UsernameTaken claims.room_code claims.username), s, [])
        else
          -- dispossess any previous live connection
          let closeFx :=
            match player.ws with
            | some old => [Effect.sentClose old.id (.Error .ConnectedInAnotherDevice)]
            | none => []
          -- install the new connection and take the pending canceller
          let player1 := { player with ws := some ws, cancel_cleanup := none }
          let room1 := { room with players := insertKey room.players claims.username player1 }
          let fx := Room.sendExcept room1 (.PlayerConnected claims.username) claims.username
          let sync : RoomSyncDto := { you := claims.username, room := Room.toDto room1 }
          (.ok sync, { s with rooms := insertKey s.rooms claims.room_code room1 },
            closeFx ++ fx)

/-- `disconnect_player` (`src/lobby.rs` lines 199-229).  The session loop
holds the room reference; here the room is addressed by its code, a room no
longer in the registry being a no-op. -/
def disconnect_player (s : State) (room_code : RoomCode) (username : Username)
    (ws : WsConnection) :
    Except MuuzikaError Unit × State × List Effect :=
  match lookupKey s.rooms room_code with
  | none => (.ok (), s, [])
  | some room =>
    match lookupKey room.players username with
    | none => (.error (.PlayerNotInRoom room.code username), s, [])
    | some player =>
      let proceed : Except MuuzikaError Unit × State × List Effect :=
        let player1 := { player with ws := none }
        let room1 := { room with players := insertKey room.players username player1 }
        let fx := Room.send room1 (.PlayerDisconnected username)
        let room2 := schedule_player_cleanup room1 username
        (.ok (), { s with rooms := insertKey s.rooms room_code room2 }, fx)
      match player.ws with
      | some old =>
        -- `if old_ws != ws { return Ok(()) }`: a newer connection already
        -- supersedes the one tearing down
        if wsConnEq old ws then proceed else (.ok (), s, [])
      | none => proceed

/-- `do_player_cleanup` (`src/lobby.rs` lines 297-325): the grace timer firing
for `(room_code, username)`. -/
def do_player_cleanup (s : State) (room_code : RoomCode) (username : Username) :
    State × List Effect :=
  match lookupKey s.rooms room_code with
  | none => (s, [])
  | some room =>
    match lookupKey room.players username with
    | none => (s, [])
    | some player =>
      if player.ws.isSome then (s, [])
      else
        let room1 := { room with players := eraseKey room.players username }
        let fx := Room.send room1 (.PlayerLeft username)
        let room2 := if room1.players.isEmpty then schedule_room_cleanup room1 else room1
        ({ s with rooms := insertKey s.rooms room_code room2 }, fx)

/-- `do_room_cleanup` (`src/lobby.rs` lines 343-355): the room-destruction
timer firing. -/
def do_room_cleanup (s : State) (room_code : RoomCode) : State :=
  match lookupKey s.rooms room_code with
  | none => s
  | some room =>
    if room.players.isEmpty then
      push_room_code { s with rooms := eraseKey s.rooms room.code } room.code
    else s

/-! ## Client commands (`src/messages.rs`) -/

/-- `handle_add` (`src/messages.rs` lines 41-54): `numbers.iter().sum()` over
`u32`, each addition wrapping modulo `2^32`; fan the result out and reply
`Noop` directly. -/
def handle_add (numbers : List Nat) (username : Username) (room : Room) :
    Except MuuzikaError ServerMessage × List Effect :=
  let result := numbers.foldl (fun a b => (a + b) % 4294967296) 0
  let fx := Room.send room (.AddResult result username)
  (.ok .Noop, fx)

/-- `handle_client_message` (`src/messages.rs` lines 27-39). -/
def handle_client_message (message : ClientMessage) (username : Username) (room : Room) :
    ServerMessage × List Effect :=
  match message with
  | .Add numbers =>
    match handle_add numbers username room with
    | (.ok m, fx) => (m, fx)
    | (.error e, fx) => (.Error e, fx)

/-! ## The lifecycle engine as a transition system -/

/-- One externally triggered operation of the lifecycle engine.  `now` is the
wall clock observed by the operation; `encodeOk` is the external codec's
verdict; cleanup operations are the corresponding timers firing. -/
inductive Op where
  | createRoom (username : Username) (now : Nat) (encodeOk : Bool)
  | joinRoom (room_code : RoomCode) (username : Username) (now : Nat) (encodeOk : Bool)
  | connectPlayer (token : Token) (ws : WsConnection)
  | disconnectPlayer (room_code : RoomCode) (username : Username) (ws : WsConnection)
  | playerCleanup (room_code : RoomCode) (username : Username)
  | roomCleanup (room_code : RoomCode)
  | clientAdd (room_code : RoomCode) (username : Username) (numbers : List Nat)
deriving DecidableEq

/-- Apply one operation. -/
def applyOp (s : State) (op : Op) : State × List Effect :=
  match op with
  | .createRoom u now ok => ((create_room s u now ok).2.1, (create_room s u now ok).2.2)
  | .joinRoom code u now ok => ((join_room s code u now ok).2.1, (join_room s code u now ok).2.2)
  | .connectPlayer token ws => ((connect_player s token ws).2.1, (connect_player s token ws).2.2)
  | .disconnectPlayer code u ws =>
    ((disconnect_player s code u ws).2.1, (disconnect_player s code u ws).2.2)
  | .playerCleanup code u => do_player_cleanup s code u
  | .roomCleanup code => (do_room_cleanup s code, [])
  | .clientAdd code u numbers =>
    match lookupKey s.rooms code with
    | some room => (s, (handle_client_message (.Add numbers) u room).2)
    | none => (s, [])

/-- Run a completed sequence of operations. -/
def run (s : State) (ops : List Op) : State :=
  ops.foldl (fun s op => (applyOp s op).1) s

end Muuzika

namespace Errors

/-! ## `src/errors.rs`, embedded as it stands

The file defines a `MuuzikaError` of four unit variants with
`#[serde(tag = "error", content = "data")]`, a status-code mapping, and the
conversion to the JSON error body `ErrorResponse`. -/

/-- `MuuzikaError` (`src/errors.rs` lines 9-23): four unit variants. -/
inductive MuuzikaError where
  | Unknown
  | RoomNotFound
  | OutOfRoomCodes
  | UsernameTaken
deriving DecidableEq

/-- `MuuzikaError::code` (`src/errors.rs` lines 25-34).  `Unknown` is the only
variant reaching the `_ => INTERNAL_SERVER_ERROR` arm. -/
def MuuzikaError.code : MuuzikaError → Nat
  | .RoomNotFound => 404
  | .OutOfRoomCodes => 503
  | .UsernameTaken => 409
  | .Unknown => 500

/-- The `#[error("...")]` display strings. -/
def MuuzikaError.message : MuuzikaError → String
  | .Unknown => "Unknown error"
  | .RoomNotFound => "Room not found"
  | .OutOfRoomCodes => "Out of room codes"
  | .UsernameTaken => "Username taken"

/-- The serde variant names. -/
def MuuzikaError.tagName : MuuzikaError → String
  | .Unknown => "Unknown"
  | .RoomNotFound => "RoomNotFound"
  | .OutOfRoomCodes => "OutOfRoomCodes"
  | .UsernameTaken => "UsernameTaken"

/-- Just enough of `serde_json::Value` for the error body. -/
inductive Json where
  | str (s : String)
  | obj (fields : List (String × Json))

/-- `Value::get` on an object. -/
def Json.get (v : Json) (key : String) : Option Json :=
  match v with
  | .obj fields => Muuzika.lookupKey fields key
  | _ => none

/-- `Value::as_str`. -/
def Json.asStr : Json → Option String
  | .str s => some s
  | _ => none

/-- `serde_json::to_value` of `MuuzikaError` under
`#[serde(tag = "error", content = "data")]`: an adjacently tagged unit variant
serializes to an object holding only the tag — no `data` key. -/
def MuuzikaError.toValue (e : MuuzikaError) : Json :=
  Json.obj [("error", Json.str e.tagName)]

/-- `ErrorResponse` (`src/errors.rs` lines 40-49); `timestamp` is the wall
clock at construction, passed in as a parameter. -/
structure ErrorResponse where
  code : Nat
  timestamp : Nat
  error : String
  message : String
  data : Option Json

/-- `impl From<&MuuzikaError> for ErrorResponse` (`src/errors.rs` lines
68-96): serialize the error, read the `error` tag (defaulting to `"Unknown"`)
and the `data` payload out of the serialized value. -/
def ErrorResponse.fromMuuzikaError (now : Nat) (e : MuuzikaError) : ErrorResponse :=
  let v := e.toValue
  let error := ((v.get "error").bind Json.asStr).getD "Unknown"
  let data := v.get "data"
  { code := e.code
    timestamp := now
    error := error
    message := e.message
    data := data }

end Errors

/-! # Theorems -/

namespace Muuzika

/-- C3: for every secret, iat, room code and username, if `encode_token`
succeeds with token `t`, then `decode_token` on `t` succeeds and returns
exactly those three claims; and the `Validation` that `decode_token` uses
enforces no expiry and requires no registered claims. -/
theorem encode_decode_roundtrip (secret : String) (iat : Nat) (room_code : RoomCode)
    (username : Username) (ok : Bool) (t : Token)
    (h : encode_token secret iat room_code username ok = .ok t) :
    decode_token secret t =
      .ok { iat := iat, room_code := room_code, username := username } ∧
    decodeValidation.validate_exp = false ∧
    decodeValidation.required_spec_claims = [] := by
  cases ok with
  | false => simp [encode_token, jwtEncode] at h
  | true =>
    simp [encode_token, jwtEncode] at h
    subst h
    refine ⟨?_, rfl, rfl⟩
    simp [decode_token, jwtDecode, decodeValidation, Validation.default, tokenClaimNames]

theorem encode_decode_roundtrip_witness :
    decode_token "s" { sig := "s", claims := ⟨1, ⟨"0001"⟩, ⟨"alice"⟩⟩ } =
      .ok { iat := 1, room_code := ⟨"0001"⟩, username := ⟨"alice"⟩ } ∧
    decodeValidation.validate_exp = false ∧
    decodeValidation.required_spec_claims = [] :=
  encode_decode_roundtrip "s" 1 ⟨"0001"⟩ ⟨"alice"⟩ true
    { sig := "s", claims := ⟨1, ⟨"0001"⟩, ⟨"alice"⟩⟩ } (by rfl)

/-- C9 helper: folding with wrapping addition computes the sum modulo `m`. -/
theorem foldl_wrap_add (m : Nat) (ns : List Nat) :
    ∀ acc : Nat, acc < m → ns.foldl (fun a b => (a + b) % m) acc = (acc + ns.sum) % m := by
  induction ns with
  | nil =>
    intro acc hacc
    simp [Nat.mod_eq_of_lt hacc]
  | cons x xs ih =>
    intro acc hacc
    have hm : 0 < m := Nat.lt_of_le_of_lt (Nat.zero_le acc) hacc
    simp only [List.foldl_cons]
    rw [ih ((acc + x) % m) (Nat.mod_lt _ hm), Nat.mod_add_mod, List.sum_cons,
      Nat.add_assoc]

/-- C9: the `Add` client command replies `Noop` directly and fans out an
`AddResult` whose `result` is the sum of the numbers modulo `2^32` and whose
`username` is the sender. -/
theorem add_command_sums_mod (ns : List Nat) (u : Username) (room : Room)
    (h : ∀ n ∈ ns, n < 4294967296) :
    handle_client_message (.Add ns) u room =
      (.Noop, Room.send room (.AddResult (ns.sum % 4294967296) u)) := by
  simp only [handle_client_message, handle_add]
  rw [foldl_wrap_add 4294967296 ns 0 (by norm_num), Nat.zero_add]

theorem add_command_sums_mod_witness :
    (∀ n ∈ [(4294967290 : Nat), 10], n < 4294967296) ∧
    handle_client_message (.Add [4294967290, 10]) ⟨"alice"⟩
        (Room.new ⟨"0001"⟩ (Player.new ⟨"alice"⟩ 5)) =
      (.Noop, Room.send (Room.new ⟨"0001"⟩ (Player.new ⟨"alice"⟩ 5))
        (.AddResult (([4294967290, 10] : List Nat).sum % 4294967296) ⟨"alice"⟩)) :=
  ⟨by decide, add_command_sums_mod [4294967290, 10] ⟨"alice"⟩
    (Room.new ⟨"0001"⟩ (Player.new ⟨"alice"⟩ 5)) (by decide)⟩

/-- C2: a token that decodes to a seat `(room_code, username)` occupied by a
player whose `created_at` differs from the token's `iat` is rejected by
`connect_player` with `UsernameTaken`, leaving the state unchanged and fanning
out nothing. -/
theorem stale_iat_rejected (s : State) (tok : Token) (ws : WsConnection)
    (room : Room) (player : Player)
    (hsig : tok.sig = s.jwt_secret)
    (hroom : lookupKey s.rooms tok.claims.room_code = some room)
    (hplayer : lookupKey room.players tok.claims.username = some player)
    (hiat : tok.claims.iat ≠ player.created_at) :
    connect_player s tok ws =
      (.error (.UsernameTaken tok.claims.room_code tok.claims.username), s, []) := by
  simp [connect_player, decode_token, jwtDecode, decodeValidation, Validation.default,
    hsig, hroom, hplayer, hiat]

theorem stale_iat_rejected_witness :
    connect_player
        { jwt_secret := "s"
          rooms := [(⟨"0001"⟩, Room.new ⟨"0001"⟩ (Player.new ⟨"alice"⟩ 5))]
          available_codes := [] }
        { sig := "s", claims := ⟨6, ⟨"0001"⟩, ⟨"alice"⟩⟩ }
        { id := "c1", tx := 0 } =
      (.error (.UsernameTaken ⟨"0001"⟩ ⟨"alice"⟩),
        { jwt_secret := "s"
          rooms := [(⟨"0001"⟩, Room.new ⟨"0001"⟩ (Player.new ⟨"alice"⟩ 5))]
          available_codes := [] }, []) :=
  stale_iat_rejected
    { jwt_secret := "s"
      rooms := [(⟨"0001"⟩, Room.new ⟨"0001"⟩ (Player.new ⟨"alice"⟩ 5))]
      available_codes := [] }
    { sig := "s", claims := ⟨6, ⟨"0001"⟩, ⟨"alice"⟩⟩ }
    { id := "c1", tx := 0 }
    (Room.new ⟨"0001"⟩ (Player.new ⟨"alice"⟩ 5))
    (Player.new ⟨"alice"⟩ 5) (by rfl) (by decide) (by decide) (by decide)

/-- C7: when a player holds a live connection `h` and a different handle
(differing in `id`; handle equality is by `id` alone) tears down,
`disconnect_player` returns without mutating the state and emits nothing. -/
theorem stale_disconnect_is_noop (s : State) (code : RoomCode) (u : Username)
    (room : Room) (player : Player) (hOld hNew : WsConnection)
    (hroom : lookupKey s.rooms code = some room)
    (hplayer : lookupKey room.players u = some player)
    (hws : player.ws = some hOld)
    (hid : hOld.id ≠ hNew.id) :
    disconnect_player s code u hNew = (.ok (), s, []) := by
  simp [disconnect_player, hroom, hplayer, hws, wsConnEq, hid]

theorem stale_disconnect_is_noop_witness :
    disconnect_player
        { jwt_secret := "s"
          rooms := [(⟨"0001"⟩,
            { code := ⟨"0001"⟩
              players := [(⟨"alice"⟩,
                { username := ⟨"alice"⟩, score := 0, ws := some { id := "c1", tx := 0 }
                  created_at := 5, cancel_cleanup := none })]
              leader := ⟨"alice"⟩
              cancel_cleanup := none })]
          available_codes := [] }
        ⟨"0001"⟩ ⟨"alice"⟩ { id := "c2", tx := 0 } =
      (.ok (),
        { jwt_secret := "s"
          rooms := [(⟨"0001"⟩,
            { code := ⟨"0001"⟩
              players := [(⟨"alice"⟩,
                { username := ⟨"alice"⟩, score := 0, ws := some { id := "c1", tx := 0 }
                  created_at := 5, cancel_cleanup := none })]
              leader := ⟨"alice"⟩
              cancel_cleanup := none })]
          available_codes := [] }, []) :=
  stale_disconnect_is_noop
    { jwt_secret := "s"
      rooms := [(⟨"0001"⟩,
        { code := ⟨"0001"⟩
          players := [(⟨"alice"⟩,
            { username := ⟨"alice"⟩, score := 0, ws := some { id := "c1", tx := 0 }
              created_at := 5, cancel_cleanup := none })]
          leader := ⟨"alice"⟩
          cancel_cleanup := none })]
      available_codes := [] }
    ⟨"0001"⟩ ⟨"alice"⟩
    { code := ⟨"0001"⟩
      players := [(⟨"alice"⟩,
        { username := ⟨"alice"⟩, score := 0, ws := some { id := "c1", tx := 0 }
          created_at := 5, cancel_cleanup := none })]
      leader := ⟨"alice"⟩
      cancel_cleanup := none }
    { username := ⟨"alice"⟩, score := 0, ws := some { id := "c1", tx := 0 }
      created_at := 5, cancel_cleanup := none }
    { id := "c1", tx := 0 } { id := "c2", tx := 0 }
    (by decide) (by decide) (by decide) (by decide)

end Muuzika

/-- C8 counterexample: in `src/errors.rs` the error variants are unit-like, so
the serialized `UsernameTaken` body carries no `roomCode`/`username` data —
its `data` field is `None`. -/
theorem usernameTaken_body_has_no_data :
    (Errors.ErrorResponse.fromMuuzikaError 0 .UsernameTaken).data = none ∧
    (Errors.ErrorResponse.fromMuuzikaError 0 .UsernameTaken).error = "UsernameTaken" := by
  constructor <;>
    simp [Errors.ErrorResponse.fromMuuzikaError, Errors.MuuzikaError.toValue,
      Errors.Json.get, Errors.Json.asStr, Muuzika.lookupKey, Errors.MuuzikaError.tagName]

/-- C8 amended: `RoomNotFound ↦ 404`, `OutOfRoomCodes ↦ 503`,
`UsernameTaken ↦ 409`, and the only other kind, `Unknown`, to `500`; there is
no `PlayerNotInRoom` kind, and every serialized error body carries the variant
name as `error` and a `data` of `None` — no kind-specific fields. -/
theorem error_taxonomy_mapping (now : Nat) :
    Errors.MuuzikaError.code .RoomNotFound = 404 ∧
    Errors.MuuzikaError.code .OutOfRoomCodes = 503 ∧
    Errors.MuuzikaError.code .UsernameTaken = 409 ∧
    Errors.MuuzikaError.code .Unknown = 500 ∧
    (∀ e : Errors.MuuzikaError,
      (Errors.ErrorResponse.fromMuuzikaError now e).code = e.code ∧
      (Errors.ErrorResponse.fromMuuzikaError now e).error = e.tagName ∧
      (Errors.ErrorResponse.fromMuuzikaError now e).data = none) := by
  refine ⟨rfl, rfl, rfl, rfl, ?_⟩
  intro e
  cases e <;>
    simp [Errors.ErrorResponse.fromMuuzikaError, Errors.MuuzikaError.toValue,
      Errors.Json.get, Errors.Json.asStr, Muuzika.lookupKey,
      Errors.MuuzikaError.tagName, Errors.MuuzikaError.code]

namespace Muuzika

/-! ## Association-list lemmas -/

theorem lookupKey_mem [DecidableEq κ] {l : List (κ × ν)} {k : κ} {v : ν}
    (h : lookupKey l k = some v) : (k, v) ∈ l := by
  induction l with
  | nil => simp [lookupKey] at h
  | cons q rest ih =>
    obtain ⟨k1, v1⟩ := q
    by_cases hk : k1 = k
    · subst hk
      simp [lookupKey] at h
      simp [h]
    · simp [lookupKey, hk] at h
      exact List.mem_cons_of_mem _ (ih h)

theorem mem_insertKey [DecidableEq κ] {l : List (κ × ν)} {k : κ} {v : ν} {q : κ × ν}
    (h : q ∈ insertKey l k v) : q = (k, v) ∨ q ∈ l := by
  induction l with
  | nil => simpa [insertKey] using h
  | cons p rest ih =>
    obtain ⟨k1, v1⟩ := p
    by_cases hk : k1 = k
    · simp [insertKey, hk] at h
      rcases h with h | h
      · exact Or.inl h
      · exact Or.inr (List.mem_cons_of_mem _ h)
    · simp [insertKey, hk] at h
      rcases h with h | h
      · exact Or.inr (by simp [h])
      · rcases ih h with h2 | h2
        · exact Or.inl h2
        · exact Or.inr (List.mem_cons_of_mem _ h2)

theorem contains_of_lookup [DecidableEq κ] {l : List (κ × ν)} {k : κ} {v : ν}
    (h : lookupKey l k = some v) : containsKey l k = true := by
  induction l with
  | nil => simp [lookupKey] at h
  | cons q rest ih =>
    obtain ⟨k1, v1⟩ := q
    by_cases hk : k1 = k
    · simp [containsKey, hk]
    · simp [lookupKey, hk] at h
      simp [containsKey, hk, ih h]

theorem lookup_of_not_contains [DecidableEq κ] {l : List (κ × ν)} {k : κ}
    (h : containsKey l k = false) : lookupKey l k = none := by
  induction l with
  | nil => simp [lookupKey]
  | cons q rest ih =>
    obtain ⟨k1, v1⟩ := q
    by_cases hk : k1 = k
    · simp [containsKey, hk] at h
    · simp [containsKey, hk] at h
      simp [lookupKey, hk, ih h]

theorem keys_insertKey_contains [DecidableEq κ] {l : List (κ × ν)} {k : κ} (v : ν)
    (h : containsKey l k = true) :
    (insertKey l k v).map Prod.fst = l.map Prod.fst := by
  induction l with
  | nil => simp [containsKey] at h
  | cons q rest ih =>
    obtain ⟨k1, v1⟩ := q
    by_cases hk : k1 = k
    · subst hk
      simp [insertKey]
    · simp [containsKey, hk] at h
      simp [insertKey, hk, ih h]

theorem keys_insertKey_not_contains [DecidableEq κ] {l : List (κ × ν)} {k : κ} (v : ν)
    (h : containsKey l k = false) :
    (insertKey l k v).map Prod.fst = l.map Prod.fst ++ [k] := by
  induction l with
  | nil => simp [insertKey]
  | cons q rest ih =>
    obtain ⟨k1, v1⟩ := q
    by_cases hk : k1 = k
    · simp [containsKey, hk] at h
    · simp [containsKey, hk] at h
      simp [insertKey, hk, ih h]

theorem lookupKey_insertKey_self [DecidableEq κ] (l : List (κ × ν)) (k : κ) (v : ν) :
    lookupKey (insertKey l k v) k = some v := by
  induction l with
  | nil => simp [insertKey, lookupKey]
  | cons q rest ih =>
    obtain ⟨k1, v1⟩ := q
    by_cases hk : k1 = k
    · simp [insertKey, hk, lookupKey]
    · simp [insertKey, hk, lookupKey, ih]

theorem lookupKey_insertKey_ne [DecidableEq κ] (l : List (κ × ν)) {k k2 : κ} (v : ν)
    (h : k ≠ k2) : lookupKey (insertKey l k v) k2 = lookupKey l k2 := by
  induction l with
  | nil => simp [insertKey, lookupKey, h]
  | cons q rest ih =>
    obtain ⟨k1, v1⟩ := q
    by_cases hk : k1 = k
    · subst hk
      simp [insertKey, lookupKey, h]
    · simp [insertKey, hk, lookupKey, ih]

theorem mem_eraseKey [DecidableEq κ] {l : List (κ × ν)} {k : κ} {q : κ × ν}
    (h : q ∈ eraseKey l k) : q ∈ l := by
  induction l with
  | nil => simpa [eraseKey] using h
  | cons p rest ih =>
    obtain ⟨k1, v1⟩ := p
    by_cases hk : k1 = k
    · simp [eraseKey, hk] at h
      exact List.mem_cons_of_mem _ h
    · simp [eraseKey, hk] at h
      rcases h with h | h
      · simp [h]
      · exact List.mem_cons_of_mem _ (ih h)

theorem keys_eraseKey_perm [DecidableEq κ] {l : List (κ × ν)} {k : κ} {v : ν}
    (h : lookupKey l k = some v) :
    List.Perm (l.map Prod.fst) (k :: (eraseKey l k).map Prod.fst) := by
  induction l with
  | nil => simp [lookupKey] at h
  | cons q rest ih =>
    obtain ⟨k1, v1⟩ := q
    by_cases hk : k1 = k
    · subst hk
      simp [eraseKey]
    · simp [lookupKey, hk] at h
      have := ih h
      simp only [List.map_cons, eraseKey, if_neg hk]
      exact (this.cons k1).trans (List.Perm.swap k k1 _)

theorem lookupKey_eraseKey_ne [DecidableEq κ] (l : List (κ × ν)) {k k2 : κ}
    (h : k ≠ k2) : lookupKey (eraseKey l k) k2 = lookupKey l k2 := by
  induction l with
  | nil => simp [eraseKey]
  | cons q rest ih =>
    obtain ⟨k1, v1⟩ := q
    by_cases hk : k1 = k
    · subst hk
      simp [eraseKey, lookupKey, h]
    · simp [eraseKey, hk, lookupKey, ih]

theorem lookupKey_none_of_not_mem [DecidableEq κ] {l : List (κ × ν)} {k : κ}
    (h : k ∉ l.map Prod.fst) : lookupKey l k = none := by
  induction l with
  | nil => simp [lookupKey]
  | cons q rest ih =>
    obtain ⟨k1, v1⟩ := q
    simp only [List.map_cons, List.mem_cons, not_or] at h
    have hne : k1 ≠ k := fun e => h.1 e.symm
    simp [lookupKey, hne, ih h.2]

theorem lookupKey_eraseKey_self [DecidableEq κ] {l : List (κ × ν)} {k : κ}
    (hnd : (l.map Prod.fst).Nodup) : lookupKey (eraseKey l k) k = none := by
  induction l with
  | nil => simp [eraseKey, lookupKey]
  | cons q rest ih =>
    obtain ⟨k1, v1⟩ := q
    simp only [List.map_cons, List.nodup_cons] at hnd
    by_cases hk : k1 = k
    · subst hk
      simp only [eraseKey, if_pos rfl]
      exact lookupKey_none_of_not_mem hnd.1
    · simp only [eraseKey, if_neg hk, lookupKey, if_neg hk]
      exact ih hnd.2

theorem vecPop_eq {l rest : List α} {c : α} (h : vecPop l = some (c, rest)) :
    l = rest ++ [c] := by
  induction l generalizing rest with
  | nil => simp [vecPop] at h
  | cons a l2 ih =>
    cases l2 with
    | nil =>
      simp [vecPop] at h
      simp [h.1, h.2.symm]
    | cons b l3 =>
      simp only [vecPop] at h
      cases h2 : vecPop (b :: l3) with
      | none => rw [h2] at h; simp at h
      | some p =>
        obtain ⟨x, l4⟩ := p
        rw [h2] at h
        simp at h
        obtain ⟨hx, hrest⟩ := h
        subst hx
        rw [← hrest]
        simpa using congrArg (a :: ·) (ih h2)

theorem vecPop_none {l : List α} (h : vecPop l = none) : l = [] := by
  cases l with
  | nil => rfl
  | cons a l2 =>
    cases l2 with
    | nil => simp [vecPop] at h
    | cons b l3 =>
      simp only [vecPop] at h
      cases h2 : vecPop (b :: l3) with
      | none => exact absurd (vecPop_none h2) (by simp)
      | some p => rw [h2] at h; cases p; simp at h

end Muuzika

namespace Muuzika

/-! ## C5: the player-cleanup timer firing -/

/-- C5: when the player-cleanup timer fires for `(room_code, username)`: if
the player is still present and offline, it is removed, `PlayerLeft` is fanned
out to the remaining connections, and the room-cleanup timer is armed exactly
when the room became empty; if the player is absent or has a live connection,
the state is untouched and nothing is emitted. -/
theorem player_cleanup_behavior (s : State) (room_code : RoomCode) (username : Username)
    (room : Room)
    (hroom : lookupKey s.rooms room_code = some room)
    (hnd : (room.players.map Prod.fst).Nodup) :
    (∀ p, lookupKey room.players username = some p → p.ws = none →
      (do_player_cleanup s room_code username =
        ({ s with
            rooms := insertKey s.rooms room_code
                (if (eraseKey room.players username).isEmpty
                  then schedule_room_cleanup
                    { room with players := eraseKey room.players username }
                  else { room with players := eraseKey room.players username }) },
          Room.send { room with players := eraseKey room.players username }
            (.PlayerLeft username))) ∧
      lookupKey (eraseKey room.players username) username = none ∧
      (∀ v, v ≠ username →
        lookupKey (eraseKey room.players username) v = lookupKey room.players v)) ∧
    (lookupKey room.players username = none →
      do_player_cleanup s room_code username = (s, [])) ∧
    (∀ p w, lookupKey room.players username = some p → p.ws = some w →
      do_player_cleanup s room_code username = (s, [])) := by
  refine ⟨?_, ?_, ?_⟩
  · intro p hp hws
    refine ⟨?_, lookupKey_eraseKey_self hnd, fun v hv => lookupKey_eraseKey_ne _ (Ne.symm hv)⟩
    simp [do_player_cleanup, hroom, hp, hws]
  · intro hp
    simp [do_player_cleanup, hroom, hp]
  · intro p w hp hws
    simp [do_player_cleanup, hroom, hp, hws]

theorem player_cleanup_behavior_witness :
    do_player_cleanup
        { jwt_secret := "s"
          rooms := [(⟨"0001"⟩,
            { code := ⟨"0001"⟩
              players := [(⟨"alice"⟩,
                { username := ⟨"alice"⟩, score := 0, ws := none
                  created_at := 5, cancel_cleanup := some () }),
                (⟨"bob"⟩,
                { username := ⟨"bob"⟩, score := 0, ws := some { id := "c1", tx := 0 }
                  created_at := 7, cancel_cleanup := none })]
              leader := ⟨"alice"⟩
              cancel_cleanup := none })]
          available_codes := [] }
        ⟨"0001"⟩ ⟨"alice"⟩ =
      ({ jwt_secret := "s"
         rooms := [(⟨"0001"⟩,
           { code := ⟨"0001"⟩
             players := [(⟨"bob"⟩,
               { username := ⟨"bob"⟩, score := 0, ws := some { id := "c1", tx := 0 }
                 created_at := 7, cancel_cleanup := none })]
             leader := ⟨"alice"⟩
             cancel_cleanup := none })]
         available_codes := [] },
        [Effect.sent "c1" (.PlayerLeft ⟨"alice"⟩)]) := by
  have h := ((player_cleanup_behavior
    { jwt_secret := "s"
      rooms := [(⟨"0001"⟩,
        { code := ⟨"0001"⟩
          players := [(⟨"alice"⟩,
            { username := ⟨"alice"⟩, score := 0, ws := none
              created_at := 5, cancel_cleanup := some () }),
            (⟨"bob"⟩,
            { username := ⟨"bob"⟩, score := 0, ws := some { id := "c1", tx := 0 }
              created_at := 7, cancel_cleanup := none })]
          leader := ⟨"alice"⟩
          cancel_cleanup := none })]
      available_codes := [] }
    ⟨"0001"⟩ ⟨"alice"⟩
    { code := ⟨"0001"⟩
      players := [(⟨"alice"⟩,
        { username := ⟨"alice"⟩, score := 0, ws := none
          created_at := 5, cancel_cleanup := some () }),
        (⟨"bob"⟩,
        { username := ⟨"bob"⟩, score := 0, ws := some { id := "c1", tx := 0 }
          created_at := 7, cancel_cleanup := none })]
      leader := ⟨"alice"⟩
      cancel_cleanup := none }
    (by decide) (by decide)).1
    { username := ⟨"alice"⟩, score := 0, ws := none
      created_at := 5, cancel_cleanup := some () }
    (by decide) (by decide)).1
  rw [h]
  decide

/-! ## C6: recipients of the `PlayerConnected` fan-out -/

/-- Updating the connecting player's own entry does not change the recipient
set of `send_except` on that player's name, provided keys match usernames. -/
theorem sendExcept_recipients_insertKey (l : List (Username × Player)) (u : Username)
    (p2 : Player)
    (hwf : ∀ q ∈ l, (q.2).username = q.1) (hu : p2.username = u) :
    ((insertKey l u p2).map Prod.snd).filterMap
        (fun p => if p.username ≠ u then p.ws else none) =
      (l.map Prod.snd).filterMap (fun p => if p.username ≠ u then p.ws else none) := by
  induction l with
  | nil => simp [insertKey, hu]
  | cons q rest ih =>
    obtain ⟨k1, v1⟩ := q
    have hv1 : v1.username = k1 := hwf (k1, v1) (by simp)
    by_cases hk : k1 = u
    · subst hk
      simp [insertKey, hu, hv1]
    · simp only [insertKey, if_neg hk, List.map_cons, List.filterMap_cons]
      rw [ih (fun q hq => hwf q (List.mem_cons_of_mem _ hq))]

/-- C6: every successful `connect_player` by `u` fans `PlayerConnected(u)` out
to exactly the players of the room other than `u` whose connection is `Some`,
in every success case — including the dispossession case, where it is preceded
by the `send_and_close` on the old handle. -/
theorem connect_fanout_recipients (s : State) (tok : Token) (ws : WsConnection)
    (room : Room) (player : Player)
    (hsig : tok.sig = s.jwt_secret)
    (hroom : lookupKey s.rooms tok.claims.room_code = some room)
    (hplayer : lookupKey room.players tok.claims.username = some player)
    (hiat : tok.claims.iat = player.created_at)
    (hwf : ∀ q ∈ room.players, (q.2).username = q.1) :
    (connect_player s tok ws).1 =
      .ok { you := tok.claims.username
            room := Room.toDto { room with
              players := insertKey room.players tok.claims.username
                { player with ws := some ws, cancel_cleanup := none } } } ∧
    (connect_player s tok ws).2.2 =
      (match player.ws with
        | some old => [Effect.sentClose old.id (.Error .ConnectedInAnotherDevice)]
        | none => []) ++
      ((room.players.map Prod.snd).filterMap
          (fun p => if p.username ≠ tok.claims.username then p.ws else none)).map
        (fun w => Effect.sent w.id (.PlayerConnected tok.claims.username)) := by
  have husr : player.username = tok.claims.username := hwf _ (lookupKey_mem hplayer)
  have hfan := sendExcept_recipients_insertKey room.players tok.claims.username
    { player with ws := some ws, cancel_cleanup := none } hwf (by simpa using husr)
  constructor
  · simp [connect_player, decode_token, jwtDecode, decodeValidation, Validation.default,
      hsig, hroom, hplayer, hiat]
  · simp only [List.filterMap_map, ne_eq, ite_not] at hfan
    simp [connect_player, decode_token, jwtDecode, decodeValidation, Validation.default,
      hsig, hroom, hplayer, hiat, Room.sendExcept, hfan]

theorem connect_fanout_recipients_witness :
    (connect_player
        { jwt_secret := "s"
          rooms := [(⟨"0001"⟩,
            { code := ⟨"0001"⟩
              players := [(⟨"alice"⟩,
                { username := ⟨"alice"⟩, score := 0, ws := some { id := "c0", tx := 0 }
                  created_at := 5, cancel_cleanup := none }),
                (⟨"bob"⟩,
                { username := ⟨"bob"⟩, score := 0, ws := some { id := "c1", tx := 0 }
                  created_at := 7, cancel_cleanup := none }),
                (⟨"carol"⟩,
                { username := ⟨"carol"⟩, score := 0, ws := none
                  created_at := 9, cancel_cleanup := some () })]
              leader := ⟨"alice"⟩
              cancel_cleanup := none })]
          available_codes := [] }
        { sig := "s", claims := ⟨5, ⟨"0001"⟩, ⟨"alice"⟩⟩ }
        { id := "c9", tx := 3 }).2.2 =
      [Effect.sentClose "c0" (.Error .ConnectedInAnotherDevice),
        Effect.sent "c1" (.PlayerConnected ⟨"alice"⟩)] := by
  have h := (connect_fanout_recipients
    { jwt_secret := "s"
      rooms := [(⟨"0001"⟩,
        { code := ⟨"0001"⟩
          players := [(⟨"alice"⟩,
            { username := ⟨"alice"⟩, score := 0, ws := some { id := "c0", tx := 0 }
              created_at := 5, cancel_cleanup := none }),
            (⟨"bob"⟩,
            { username := ⟨"bob"⟩, score := 0, ws := some { id := "c1", tx := 0 }
              created_at := 7, cancel_cleanup := none }),
            (⟨"carol"⟩,
            { username := ⟨"carol"⟩, score := 0, ws := none
              created_at := 9, cancel_cleanup := some () })]
          leader := ⟨"alice"⟩
          cancel_cleanup := none })]
      available_codes := [] }
    { sig := "s", claims := ⟨5, ⟨"0001"⟩, ⟨"alice"⟩⟩ }
    { id := "c9", tx := 3 }
    { code := ⟨"0001"⟩
      players := [(⟨"alice"⟩,
        { username := ⟨"alice"⟩, score := 0, ws := some { id := "c0", tx := 0 }
          created_at := 5, cancel_cleanup := none }),
        (⟨"bob"⟩,
        { username := ⟨"bob"⟩, score := 0, ws := some { id := "c1", tx := 0 }
          created_at := 7, cancel_cleanup := none }),
        (⟨"carol"⟩,
        { username := ⟨"carol"⟩, score := 0, ws := none
          created_at := 9, cancel_cleanup := some () })]
      leader := ⟨"alice"⟩
      cancel_cleanup := none }
    { username := ⟨"alice"⟩, score := 0, ws := some { id := "c0", tx := 0 }
      created_at := 5, cancel_cleanup := none }
    (by rfl) (by decide) (by decide) (by decide) (by decide)).2
  rw [h]
  decide

end Muuzika

namespace Muuzika

/-! ## Infrastructure for reachability invariants -/

theorem insertKey_insertKey [DecidableEq κ] (l : List (κ × ν)) (k : κ) (v v2 : ν) :
    insertKey (insertKey l k v) k v2 = insertKey l k v2 := by
  induction l with
  | nil => simp [insertKey]
  | cons q rest ih =>
    obtain ⟨k1, v1⟩ := q
    by_cases hk : k1 = k
    · simp [insertKey, hk]
    · simp [insertKey, hk, ih]

theorem forall_mem_insertKey [DecidableEq κ] {Q : κ × ν → Prop} {l : List (κ × ν)}
    {k : κ} {v : ν} (hl : ∀ q ∈ l, Q q) (hv : Q (k, v)) : ∀ q ∈ insertKey l k v, Q q :=
  fun q hq => (mem_insertKey hq).elim (fun he => he ▸ hv) (hl q)

theorem forall_mem_eraseKey [DecidableEq κ] {Q : κ × ν → Prop} {l : List (κ × ν)}
    {k : κ} (hl : ∀ q ∈ l, Q q) : ∀ q ∈ eraseKey l k, Q q :=
  fun q hq => hl q (mem_eraseKey hq)

/-- Arming the player-cleanup canceller preserves a pointwise player property,
as long as the property tolerates arming the looked-up player. -/
theorem playersProp_schedule {P : Player → Prop} {room : Room} {u : Username}
    (h : ∀ q ∈ room.players, P q.2)
    (harm2 : ∀ p, lookupKey room.players u = some p →
      P { p with cancel_cleanup := some () }) :
    ∀ q ∈ (schedule_player_cleanup room u).players, P q.2 := by
  unfold schedule_player_cleanup
  cases hl : lookupKey room.players u with
  | none => exact h
  | some p =>
    intro q hq
    rcases mem_insertKey hq with he | hm
    · rw [he]
      exact harm2 p hl
    · exact h q hm

theorem pop_room_code_ok {s : State} {c : RoomCode} {s1 : State}
    (h : pop_room_code s = .ok (c, s1)) :
    s1.rooms = s.rooms ∧ s1.jwt_secret = s.jwt_secret ∧
    s.available_codes = s1.available_codes ++ [c] := by
  unfold pop_room_code at h
  cases hvp : vecPop s.available_codes with
  | none => rw [hvp] at h; simp at h
  | some pr =>
    obtain ⟨c2, rest⟩ := pr
    rw [hvp] at h
    simp at h
    obtain ⟨hc, hs1⟩ := h
    subst hc
    rw [← hs1]
    exact ⟨rfl, rfl, vecPop_eq hvp⟩

theorem create_room_with_code_ok {s : State} {u : Username} {code : RoomCode}
    {now : Nat} {ok : Bool} {s2 : State} {t : Token}
    (h : create_room_with_code s u code now ok = .ok (s2, t)) :
    s2.rooms = insertKey s.rooms code
      (schedule_player_cleanup (Room.new code (Player.new u now)) u) ∧
    s2.available_codes = s.available_codes ∧ s2.jwt_secret = s.jwt_secret := by
  unfold create_room_with_code at h
  cases ok with
  | false => simp [encode_token, jwtEncode] at h
  | true =>
    simp only [encode_token, jwtEncode, if_pos] at h
    simp at h
    rw [← h.1]
    exact ⟨insertKey_insertKey _ _ _ _, rfl, rfl⟩

theorem create_room_with_code_false (s : State) (u : Username) (code : RoomCode)
    (now : Nat) :
    create_room_with_code s u code now false = .error .InvalidToken := by
  simp [create_room_with_code, encode_token, jwtEncode]

/-- Master preservation lemma: a pointwise property of players closed under
the four player transformations the engine performs is preserved by every
operation. -/
theorem stateProp_applyOp {P : Player → Prop}
    (hnew : ∀ u now, P (Player.new u now))
    (harm : ∀ p, p.ws = none → P p → P { p with cancel_cleanup := some () })
    (hconn : ∀ p w, P p → P { p with ws := some w, cancel_cleanup := none })
    (hdis : ∀ p, P p → P { p with ws := none })
    (s : State) (op : Op)
    (hs : ∀ q ∈ s.rooms, ∀ r ∈ (q.2).players, P r.2) :
    ∀ q ∈ (applyOp s op).1.rooms, ∀ r ∈ (q.2).players, P r.2 := by
  cases op with
  | createRoom u now ok =>
    simp only [applyOp, create_room]
    split
    · exact hs
    · rename_i pr code s1 hpop
      obtain ⟨hrooms1, _, _⟩ := pop_room_code_ok hpop
      split
      · rename_i st s2 t hcwc
        obtain ⟨hr2, _, _⟩ := create_room_with_code_ok hcwc
        have hgoal : ∀ q ∈ s2.rooms, ∀ r ∈ (q.2).players, P r.2 := by
          rw [hr2, hrooms1]
          refine forall_mem_insertKey hs ?_
          refine playersProp_schedule ?_ ?_
          · intro q hq
            simp only [Room.new, List.mem_singleton] at hq
            rw [hq]
            exact hnew u now
          · intro p hp
            have hlu : lookupKey (Room.new code (Player.new u now)).players u =
                some (Player.new u now) := by
              simp [Room.new, lookupKey, Player.new]
            rw [hlu] at hp
            cases hp
            exact harm _ rfl (hnew u now)
        exact hgoal
      · have hgoal : ∀ q ∈ (push_room_code s1 code).rooms, ∀ r ∈ (q.2).players, P r.2 := by
          show ∀ q ∈ s1.rooms, ∀ r ∈ (q.2).players, P r.2
          rw [hrooms1]
          exact hs
        exact hgoal
  | joinRoom code u now ok =>
    simp only [applyOp, join_room]
    split
    · exact hs
    · rename_i room hl
      have hroomP : ∀ q ∈ room.players, P q.2 := hs _ (lookupKey_mem hl)
      split
      · exact hs
      · split
        · exact hs
        · rename_i hc t token hEnc
          have hgoal : ∀ q ∈ insertKey s.rooms code
              (schedule_player_cleanup
                { room with
                    players := insertKey room.players u (Player.new u now),
                    cancel_cleanup := none } u), ∀ r ∈ (q.2).players, P r.2 := by
            refine forall_mem_insertKey hs ?_
            refine playersProp_schedule ?_ ?_
            · exact fun q hq => (mem_insertKey hq).elim
                (fun he => he ▸ hnew u now) (fun hm => hroomP q hm)
            · intro p hp
              rw [show ({ room with
                    players := insertKey room.players u (Player.new u now),
                    cancel_cleanup := none } : Room).players =
                  insertKey room.players u (Player.new u now) from rfl,
                lookupKey_insertKey_self] at hp
              cases hp
              exact harm _ rfl (hnew u now)
          exact hgoal
  | connectPlayer tok ws =>
    simp only [applyOp, connect_player]
    split
    · exact hs
    · rename_i claims hdec
      split
      · exact hs
      · rename_i room hl
        have hroomP : ∀ q ∈ room.players, P q.2 := hs _ (lookupKey_mem hl)
        split
        · exact hs
        · rename_i player hp
          have hP : P player := hroomP _ (lookupKey_mem hp)
          split
          · exact hs
          · have hgoal : ∀ q ∈ insertKey s.rooms claims.room_code
                { room with
                    players := insertKey room.players claims.username
                      { player with ws := some ws, cancel_cleanup := none } },
                ∀ r ∈ (q.2).players, P r.2 := by
              refine forall_mem_insertKey hs ?_
              exact fun q hq => (mem_insertKey hq).elim
                (fun he => he ▸ hconn player ws hP) (fun hm => hroomP q hm)
            exact hgoal
  | disconnectPlayer code u ws =>
    simp only [applyOp, disconnect_player]
    split
    · exact hs
    · rename_i room hl
      have hroomP : ∀ q ∈ room.players, P q.2 := hs _ (lookupKey_mem hl)
      split
      · exact hs
      · rename_i player hp
        have hP : P player := hroomP _ (lookupKey_mem hp)
        have hmain : ∀ q ∈ insertKey s.rooms code
            (schedule_player_cleanup
              { room with
                  players := insertKey room.players u { player with ws := none } }
              u), ∀ r ∈ (q.2).players, P r.2 := by
          refine forall_mem_insertKey hs ?_
          refine playersProp_schedule ?_ ?_
          · exact fun q hq => (mem_insertKey hq).elim
              (fun he => he ▸ hdis player hP) (fun hm => hroomP q hm)
          · intro p hp2
            rw [show ({ room with
                  players := insertKey room.players u { player with ws := none } } : Room).players =
                insertKey room.players u { player with ws := none } from rfl,
              lookupKey_insertKey_self] at hp2
            cases hp2
            exact harm _ rfl (hdis player hP)
        split
        · split
          · exact hmain
          · exact hs
        · exact hmain
  | playerCleanup code u =>
    simp only [applyOp, do_player_cleanup]
    split
    · exact hs
    · rename_i room hl
      have hroomP : ∀ q ∈ room.players, P q.2 := hs _ (lookupKey_mem hl)
      split
      · exact hs
      · rename_i player hp
        split
        · exact hs
        · have herased : ∀ q ∈ eraseKey room.players u, P q.2 :=
            forall_mem_eraseKey hroomP
          refine forall_mem_insertKey hs ?_
          split
          · exact herased
          · exact herased
  | roomCleanup code =>
    simp only [applyOp, do_room_cleanup]
    split
    · exact hs
    · rename_i room hl
      split
      · exact fun q hq => hs q (mem_eraseKey hq)
      · exact hs
  | clientAdd code u numbers =>
    simp only [applyOp]
    split
    · exact hs
    · exact hs
/-- The master lemma extended along a whole run. -/
theorem stateProp_run {P : Player → Prop}
    (hnew : ∀ u now, P (Player.new u now))
    (harm : ∀ p, p.ws = none → P p → P { p with cancel_cleanup := some () })
    (hconn : ∀ p w, P p → P { p with ws := some w, cancel_cleanup := none })
    (hdis : ∀ p, P p → P { p with ws := none })
    (ops : List Op) :
    ∀ s : State, (∀ q ∈ s.rooms, ∀ r ∈ (q.2).players, P r.2) →
      ∀ q ∈ (run s ops).rooms, ∀ r ∈ (q.2).players, P r.2 := by
  induction ops with
  | nil => exact fun s hs => hs
  | cons op rest ih =>
    intro s hs
    exact ih _ (stateProp_applyOp hnew harm hconn hdis s op hs)

end Muuzika

namespace Muuzika

/-- C4: after every sequence of lifecycle operations from a fresh state, no
player simultaneously holds a live connection and an armed cleanup canceller:
installing a connection clears the canceller, and a canceller is only ever
armed while the player's connection is `None`. -/
theorem no_conn_and_armed_canceller (jwt_secret : String) (codes : List RoomCode)
    (ops : List Op) :
    ∀ q ∈ (run { jwt_secret := jwt_secret, rooms := [], available_codes := codes }
        ops).rooms,
      ∀ r ∈ (q.2).players,
        ¬((r.2).ws.isSome = true ∧ (r.2).cancel_cleanup.isSome = true) := by
  refine @stateProp_run
    (fun p => ¬(p.ws.isSome = true ∧ p.cancel_cleanup.isSome = true))
    ?_ ?_ ?_ ?_ ops { jwt_secret := jwt_secret, rooms := [], available_codes := codes } ?_
  · intro u now
    simp [Player.new]
  · intro p hws _
    simp [hws]
  · intro p w _
    simp
  · intro p _
    simp
  · intro q hq
    simp at hq

theorem no_conn_and_armed_canceller_witness :
    ¬((({ username := ⟨"alice"⟩, score := 0, ws := none, created_at := 5,
          cancel_cleanup := some () } : Player)).ws.isSome = true ∧
      (({ username := ⟨"alice"⟩, score := 0, ws := none, created_at := 5,
          cancel_cleanup := some () } : Player)).cancel_cleanup.isSome = true) :=
  no_conn_and_armed_canceller "s" [⟨"9"⟩] [Op.createRoom ⟨"alice"⟩ 5 true]
    (⟨"9"⟩,
      { code := ⟨"9"⟩
        players := [(⟨"alice"⟩,
          { username := ⟨"alice"⟩, score := 0, ws := none, created_at := 5,
            cancel_cleanup := some () })]
        leader := ⟨"alice"⟩
        cancel_cleanup := none })
    (by decide)
    (⟨"alice"⟩,
      { username := ⟨"alice"⟩, score := 0, ws := none, created_at := 5,
        cancel_cleanup := some () })
    (by decide)

/-- C10: every player is constructed with score 0, no operation mutates a
score, so after every sequence of operations every player's score is 0, and
every `RoomDto`/`PlayerDto` (hence every `Sync` snapshot) reports score 0. -/
theorem scores_always_zero (jwt_secret : String) (code_length : Nat) (ops : List Op) :
    (∀ u now, (Player.new u now).score = 0) ∧
    (∀ q ∈ (run (State.new jwt_secret code_length) ops).rooms,
      (∀ r ∈ (q.2).players, (r.2).score = 0) ∧
      (∀ d ∈ (Room.toDto q.2).players, d.score = 0)) := by
  have hmain : ∀ q ∈ (run (State.new jwt_secret code_length) ops).rooms,
      ∀ r ∈ (q.2).players, (r.2).score = 0 := by
    refine @stateProp_run (fun p => p.score = 0)
      ?_ ?_ ?_ ?_ ops (State.new jwt_secret code_length) ?_
    · intro u now
      simp [Player.new]
    · intro p _ hP
      simpa using hP
    · intro p w hP
      simpa using hP
    · intro p hP
      simpa using hP
    · intro q hq
      simp [State.new] at hq
  refine ⟨fun u now => rfl, fun q hq => ⟨hmain q hq, ?_⟩⟩
  intro d hd
  simp only [Room.toDto, List.map_map, List.mem_map] at hd
  obtain ⟨r, hr, rfl⟩ := hd
  simpa [Player.toDto] using hmain q hq r hr

end Muuzika

namespace Muuzika

/-! ## Code generation facts -/

theorem ofDigits_replicate_zero (b n : Nat) :
    Nat.ofDigits b (List.replicate n 0) = 0 := by
  induction n with
  | zero => simp [Nat.ofDigits]
  | succ n ih => simp [List.replicate_succ, Nat.ofDigits_cons, ih]

theorem digitOfChar_digitChar {d : Nat} (h : d < 10) :
    digitOfChar (Nat.digitChar d) = d := by
  interval_cases d <;> rfl

theorem formatWidth_injective (w : Nat) : Function.Injective (formatWidth w) := by
  intro c1 c2 h
  have hdata := congrArg String.data h
  simp only [formatWidth] at hdata
  have h2 := List.reverse_injective hdata
  have h3 := congrArg (List.map digitOfChar) h2
  simp only [List.map_append, List.map_map, List.map_replicate] at h3
  have hz : digitOfChar '0' = 0 := rfl
  rw [hz] at h3
  have hrt : ∀ n : Nat,
      (Nat.digits 10 n).map (digitOfChar ∘ Nat.digitChar) = Nat.digits 10 n := by
    intro n
    have hpt : ∀ x ∈ Nat.digits 10 n, (digitOfChar ∘ Nat.digitChar) x = x := by
      intro x hx
      exact digitOfChar_digitChar (Nat.digits_lt_base (by norm_num) hx)
    calc (Nat.digits 10 n).map (digitOfChar ∘ Nat.digitChar)
        = (Nat.digits 10 n).map id := List.map_congr_left hpt
      _ = Nat.digits 10 n := List.map_id _
  rw [hrt, hrt] at h3
  have h4 := congrArg (Nat.ofDigits 10) h3
  rw [Nat.ofDigits_append, Nat.ofDigits_append, ofDigits_replicate_zero,
    ofDigits_replicate_zero] at h4
  simpa [Nat.ofDigits_digits] using h4

theorem generate_available_codes_nodup (w : Nat) :
    (generate_available_codes w).Nodup := by
  unfold generate_available_codes
  split
  · exact List.nodup_nil
  · refine List.Nodup.map ?_ (List.nodup_range _)
    intro a b hab
    exact formatWidth_injective w (congrArg RoomCode.val hab)

theorem generate_available_codes_length {w : Nat} (h : w ≤ 9) :
    (generate_available_codes w).length = 10 ^ w := by
  simp [generate_available_codes, Nat.not_lt.mpr h]

theorem containsKey_iff_mem [DecidableEq κ] {l : List (κ × ν)} {k : κ} :
    containsKey l k = true ↔ k ∈ l.map Prod.fst := by
  induction l with
  | nil => simp [containsKey]
  | cons q rest ih =>
    obtain ⟨k1, v1⟩ := q
    by_cases hk : k1 = k
    · simp [containsKey, hk]
    · simp [containsKey, hk, ih, eq_comm]
      exact fun he => absurd he.symm hk

theorem schedule_player_cleanup_code (room : Room) (u : Username) :
    (schedule_player_cleanup room u).code = room.code := by
  unfold schedule_player_cleanup
  cases lookupKey room.players u <;> rfl

end Muuzika

namespace Muuzika

/-- Preservation of the code-conservation invariant by one operation: the
multiset of registry keys plus pool codes never changes, and registry keys
keep naming their room's own code. -/
theorem codes_applyOp {univ : List RoomCode} (hnd : univ.Nodup) (s : State) (op : Op)
    (hperm : List.Perm (s.rooms.map Prod.fst ++ s.available_codes) univ)
    (hcode : ∀ q ∈ s.rooms, (q.2).code = q.1) :
    List.Perm ((applyOp s op).1.rooms.map Prod.fst ++
      (applyOp s op).1.available_codes) univ ∧
    (∀ q ∈ (applyOp s op).1.rooms, (q.2).code = q.1) := by
  cases op with
  | createRoom u now ok =>
    simp only [applyOp, create_room]
    split
    · exact ⟨hperm, hcode⟩
    · rename_i pr code s1 hpop
      obtain ⟨hrooms1, hjwt1, hpool1⟩ := pop_room_code_ok hpop
      split
      · rename_i st s2 t hcwc
        obtain ⟨hr2, hav2, _⟩ := create_room_with_code_ok hcwc
        have hnotmem : code ∉ s.rooms.map Prod.fst := by
          have hndl : (s.rooms.map Prod.fst ++ s.available_codes).Nodup :=
            hperm.symm.nodup hnd
          have hdisj := (List.nodup_append.mp hndl).2.2
          intro hmem
          exact hdisj hmem
            (by rw [hpool1]; exact List.mem_append_right _ (List.mem_singleton_self _))
        have hcontains : containsKey s.rooms code = false := by
          rw [← Bool.not_eq_true]
          exact fun h => hnotmem (containsKey_iff_mem.mp h)
        constructor
        · have hgoal : List.Perm (s2.rooms.map Prod.fst ++ s2.available_codes) univ := by
            rw [hr2, hav2, hrooms1, keys_insertKey_not_contains _ hcontains]
            rw [hpool1] at hperm
            rw [List.append_assoc]
            exact (List.Perm.append_left _ List.perm_append_comm).trans hperm
          exact hgoal
        · have hgoal : ∀ q ∈ s2.rooms, (q.2).code = q.1 := by
            rw [hr2, hrooms1]
            refine forall_mem_insertKey hcode ?_
            show (schedule_player_cleanup (Room.new code (Player.new u now)) u).code = code
            rw [schedule_player_cleanup_code]
            rfl
          exact hgoal
      · constructor
        · have hgoal : List.Perm ((push_room_code s1 code).rooms.map Prod.fst ++
              (push_room_code s1 code).available_codes) univ := by
            show List.Perm (s1.rooms.map Prod.fst ++ (s1.available_codes ++ [code])) univ
            rw [hrooms1, ← hpool1]
            exact hperm
          exact hgoal
        · have hgoal : ∀ q ∈ (push_room_code s1 code).rooms, (q.2).code = q.1 := by
            show ∀ q ∈ s1.rooms, (q.2).code = q.1
            rw [hrooms1]
            exact hcode
          exact hgoal
  | joinRoom code u now ok =>
    simp only [applyOp, join_room]
    split
    · exact ⟨hperm, hcode⟩
    · rename_i room hl
      have hrc : room.code = code := hcode _ (lookupKey_mem hl)
      split
      · exact ⟨hperm, hcode⟩
      · split
        · exact ⟨hperm, hcode⟩
        · rename_i hc t token hEnc
          have hcont : containsKey s.rooms code = true := contains_of_lookup hl
          constructor
          · have hgoal : List.Perm ((insertKey s.rooms code
                (schedule_player_cleanup
                  { room with
                      players := insertKey room.players u (Player.new u now),
                      cancel_cleanup := none } u)).map Prod.fst ++
                s.available_codes) univ := by
              rw [keys_insertKey_contains _ hcont]
              exact hperm
            exact hgoal
          · have hgoal : ∀ q ∈ insertKey s.rooms code
                (schedule_player_cleanup
                  { room with
                      players := insertKey room.players u (Player.new u now),
                      cancel_cleanup := none } u), (q.2).code = q.1 := by
              refine forall_mem_insertKey hcode ?_
              show (schedule_player_cleanup _ u).code = code
              rw [schedule_player_cleanup_code]
              exact hrc
            exact hgoal
  | connectPlayer tok ws =>
    simp only [applyOp, connect_player]
    split
    · exact ⟨hperm, hcode⟩
    · rename_i claims hdec
      split
      · exact ⟨hperm, hcode⟩
      · rename_i room hl
        have hrc : room.code = claims.room_code := hcode _ (lookupKey_mem hl)
        split
        · exact ⟨hperm, hcode⟩
        · rename_i player hp
          split
          · exact ⟨hperm, hcode⟩
          · have hcont : containsKey s.rooms claims.room_code = true :=
              contains_of_lookup hl
            constructor
            · have hgoal : List.Perm ((insertKey s.rooms claims.room_code
                  { room with
                      players := insertKey room.players claims.username
                        { player with ws := some ws, cancel_cleanup := none } }).map
                    Prod.fst ++ s.available_codes) univ := by
                rw [keys_insertKey_contains _ hcont]
                exact hperm
              exact hgoal
            · have hgoal : ∀ q ∈ insertKey s.rooms claims.room_code
                  { room with
                      players := insertKey room.players claims.username
                        { player with ws := some ws, cancel_cleanup := none } },
                  (q.2).code = q.1 := by
                refine forall_mem_insertKey hcode ?_
                exact hrc
              exact hgoal
  | disconnectPlayer code u ws =>
    simp only [applyOp, disconnect_player]
    split
    · exact ⟨hperm, hcode⟩
    · rename_i room hl
      have hrc : room.code = code := hcode _ (lookupKey_mem hl)
      have hcont : containsKey s.rooms code = true := contains_of_lookup hl
      split
      · exact ⟨hperm, hcode⟩
      · rename_i player hp
        have hmain : List.Perm ((insertKey s.rooms code
              (schedule_player_cleanup
                { room with
                    players := insertKey room.players u { player with ws := none } }
                u)).map Prod.fst ++ s.available_codes) univ ∧
            ∀ q ∈ insertKey s.rooms code
              (schedule_player_cleanup
                { room with
                    players := insertKey room.players u { player with ws := none } }
                u), (q.2).code = q.1 := by
          constructor
          · rw [keys_insertKey_contains _ hcont]
            exact hperm
          · refine forall_mem_insertKey hcode ?_
            show (schedule_player_cleanup _ u).code = code
            rw [schedule_player_cleanup_code]
            exact hrc
        split
        · split
          · exact hmain
          · exact ⟨hperm, hcode⟩
        · exact hmain
  | playerCleanup code u =>
    simp only [applyOp, do_player_cleanup]
    split
    · exact ⟨hperm, hcode⟩
    · rename_i room hl
      have hrc : room.code = code := hcode _ (lookupKey_mem hl)
      have hcont : containsKey s.rooms code = true := contains_of_lookup hl
      split
      · exact ⟨hperm, hcode⟩
      · rename_i player hp
        split
        · exact ⟨hperm, hcode⟩
        · constructor
          · have hgoal : List.Perm ((insertKey s.rooms code
                (if (eraseKey room.players u).isEmpty
                  then schedule_room_cleanup
                    { room with players := eraseKey room.players u }
                  else { room with players := eraseKey room.players u })).map
                  Prod.fst ++ s.available_codes) univ := by
              rw [keys_insertKey_contains _ hcont]
              exact hperm
            exact hgoal
          · have hgoal : ∀ q ∈ insertKey s.rooms code
                (if (eraseKey room.players u).isEmpty
                  then schedule_room_cleanup
                    { room with players := eraseKey room.players u }
                  else { room with players := eraseKey room.players u }),
                (q.2).code = q.1 := by
              refine forall_mem_insertKey hcode ?_
              split
              · exact hrc
              · exact hrc
            exact hgoal
  | roomCleanup code =>
    simp only [applyOp, do_room_cleanup]
    split
    · exact ⟨hperm, hcode⟩
    · rename_i room hl
      have hrc : room.code = code := hcode _ (lookupKey_mem hl)
      split
      · rename_i hemp
        have hl2 : lookupKey s.rooms room.code = some room := by rw [hrc]; exact hl
        have h1 := keys_eraseKey_perm hl2
        constructor
        · have hgoal : List.Perm ((eraseKey s.rooms room.code).map Prod.fst ++
              (s.available_codes ++ [room.code])) univ := by
            refine List.Perm.trans ?_ hperm
            refine List.Perm.trans (List.Perm.append_left _ List.perm_append_comm) ?_
            rw [← List.append_assoc]
            refine List.Perm.append_right s.available_codes ?_
            refine List.Perm.trans ?_ h1.symm
            simpa using
              @List.perm_append_comm _ ((eraseKey s.rooms room.code).map Prod.fst)
                [room.code]
          exact hgoal
        · exact fun q hq => hcode q (mem_eraseKey hq)
      · exact ⟨hperm, hcode⟩
  | clientAdd code u numbers =>
    simp only [applyOp]
    split
    · exact ⟨hperm, hcode⟩
    · exact ⟨hperm, hcode⟩

/-- The conservation invariant extended along a whole run. -/
theorem codes_run {univ : List RoomCode} (hnd : univ.Nodup) (ops : List Op) :
    ∀ s : State,
      List.Perm (s.rooms.map Prod.fst ++ s.available_codes) univ →
      (∀ q ∈ s.rooms, (q.2).code = q.1) →
      List.Perm ((run s ops).rooms.map Prod.fst ++ (run s ops).available_codes) univ ∧
      (∀ q ∈ (run s ops).rooms, (q.2).code = q.1) := by
  induction ops with
  | nil => exact fun s hp hc => ⟨hp, hc⟩
  | cons op rest ih =>
    intro s hp hc
    obtain ⟨hp2, hc2⟩ := codes_applyOp hnd s op hp hc
    exact ih _ hp2 hc2

end Muuzika

namespace Muuzika

/-- C1: starting from the fresh state (empty registry, pool of all `10^w`
width-`w` decimal codes), after every completed sequence of operations each
generated code is present in exactly one of the registry and the pool, so
`|registry| + |pool| = 10^w`; moreover a failing `create_room` restores the
state it started from (the popped code is pushed back), and `do_room_cleanup`
pushes a code back exactly when it removes that room's registry entry. -/
theorem room_code_conservation (code_length : Nat) (hw : code_length ≤ 9)
    (jwt_secret : String) (ops : List Op) :
    (∀ c ∈ generate_available_codes code_length,
      ((run (State.new jwt_secret code_length) ops).rooms.map Prod.fst).count c +
        (run (State.new jwt_secret code_length) ops).available_codes.count c = 1) ∧
    ((run (State.new jwt_secret code_length) ops).rooms.length +
        (run (State.new jwt_secret code_length) ops).available_codes.length =
      10 ^ code_length) ∧
    (∀ (t : State) (u : Username) (now : Nat),
      (create_room t u now false).2.1 = t) ∧
    (∀ (t : State) (c : RoomCode),
      (∃ room, lookupKey t.rooms c = some room ∧ room.players.isEmpty = true ∧
        do_room_cleanup t c =
          { t with rooms := eraseKey t.rooms room.code,
                   available_codes := t.available_codes ++ [room.code] }) ∨
      ((lookupKey t.rooms c = none ∨
          ∃ room, lookupKey t.rooms c = some room ∧ room.players.isEmpty = false) ∧
        do_room_cleanup t c = t)) := by
  have hnd := generate_available_codes_nodup code_length
  obtain ⟨hperm, hcode⟩ := codes_run hnd ops (State.new jwt_secret code_length)
    (by simp [State.new]) (by simp [State.new])
  refine ⟨?_, ?_, ?_, ?_⟩
  · intro c hc
    calc ((run (State.new jwt_secret code_length) ops).rooms.map Prod.fst).count c +
          (run (State.new jwt_secret code_length) ops).available_codes.count c
        = ((run (State.new jwt_secret code_length) ops).rooms.map Prod.fst ++
            (run (State.new jwt_secret code_length) ops).available_codes).count c :=
          (List.count_append _ _ _).symm
      _ = (generate_available_codes code_length).count c := hperm.count_eq c
      _ = 1 := List.count_eq_one_of_mem hnd hc
  · have hlen := hperm.length_eq
    rw [List.length_append, List.length_map, generate_available_codes_length hw] at hlen
    exact hlen
  · intro t u now
    simp only [create_room]
    split
    · rfl
    · rename_i pr code t1 hpop
      split
      · rename_i st s2 tk hcwc
        rw [create_room_with_code_false] at hcwc
        cases hcwc
      · obtain ⟨hrooms, hjwt, hpool⟩ := pop_room_code_ok hpop
        show push_room_code t1 code = t
        cases t with
        | mk jw rm av =>
          cases t1 with
          | mk jw1 rm1 av1 =>
            simp only at hrooms hjwt hpool
            subst hrooms
            subst hjwt
            subst hpool
            simp [push_room_code]
  · intro t c
    cases hl : lookupKey t.rooms c with
    | none => exact Or.inr ⟨Or.inl rfl, by simp [do_room_cleanup, hl]⟩
    | some room =>
      by_cases he : room.players.isEmpty
      · exact Or.inl ⟨room, rfl, he, by simp [do_room_cleanup, hl, he, push_room_code]⟩
      · refine Or.inr ⟨Or.inr ⟨room, rfl, by simpa using he⟩, ?_⟩
        simp [do_room_cleanup, hl, he]

theorem room_code_conservation_witness :
    (run (State.new "s" 1) [Op.createRoom ⟨"alice"⟩ 5 true]).rooms.length +
      (run (State.new "s" 1) [Op.createRoom ⟨"alice"⟩ 5 true]).available_codes.length =
    10 ^ 1 :=
  (room_code_conservation 1 (by decide) "s" [Op.createRoom ⟨"alice"⟩ 5 true]).2.1

end Muuzika
